import Mathlib

/-!
Shallow embedding of the pricing and calibration engine of `grapher_v2`
(`src/pricing/engine.ts`, direction-aware revision).  Numbers are modelled
as exact rationals; the JavaScript `Math` builtins used by the engine
(`Math.log`, `Math.sqrt`, `Math.exp`) are abstracted as a record of
rational-valued primitives, so every definition stays computable and every
structural property of the engine holds for an arbitrary instantiation of
those primitives.
-/

/-- The JavaScript `Math` builtins the engine calls, as abstract
rational-valued primitives. -/
structure MathLib where
  log : ℚ → ℚ
  sqrt : ℚ → ℚ
  exp : ℚ → ℚ

/-- `Number.EPSILON` (2⁻⁵²), used by the solver's dynamic tolerance. -/
def numberEpsilon : ℚ := 1 / 4503599627370496

/-- `normalCDF(x)`: Abramowitz–Stegun 26.2.17 rational approximation of the
standard normal CDF, with fast paths for `|x| > 8`. -/
def normalCDF (M : MathLib) (x : ℚ) : ℚ :=
  if 8 < x then 1
  else if x < -8 then 0
  else
    let a1 : ℚ := 0.254829592
    let a2 : ℚ := -0.284496736
    let a3 : ℚ := 1.421413741
    let a4 : ℚ := -1.453152027
    let a5 : ℚ := 1.061405429
    let p : ℚ := 0.3275911
    let sign : ℚ := if x < 0 then -1 else 1
    let absX := |x|
    let t := 1 / (1 + p * absX)
    let t2 := t * t
    let t3 := t2 * t
    let t4 := t3 * t
    let t5 := t4 * t
    let y := 1 - (a1 * t + a2 * t2 + a3 * t3 + a4 * t4 + a5 * t5) * M.exp (-absX * absX / 2)
    0.5 * (1 + sign * y)

/-- `priceAbove(S, K, sigma, tau)`: European binary ("above") YES price
`Φ(d₂)`, with the degenerate step function when `tau ≤ 0` or `sigma ≤ 0`. -/
def priceAbove (M : MathLib) (S K sigma tau : ℚ) : ℚ :=
  if tau ≤ 0 then (if K ≤ S then 1 else 0)
  else if sigma ≤ 0 then (if K ≤ S then 1 else 0)
  else
    let sqrtTau := M.sqrt tau
    let d2 := (M.log (S / K) - sigma * sigma * tau / 2) / (sigma * sqrtTau)
    normalCDF M d2

/-- `priceHit(S, H, sigma, tau, isUpBarrier)`: one-touch barrier ("hit")
YES price with direction support (r = 0). -/
def priceHit (M : MathLib) (S H sigma tau : ℚ) (isUpBarrier : Bool) : ℚ :=
  if S = H then 1
  else if isUpBarrier then
    -- UP barrier: need price to rise to H
    if H ≤ S then 1
    else if tau ≤ 0 ∨ sigma ≤ 0 then 0
    else
      let sqrtTau := M.sqrt tau
      let logSH := M.log (S / H)
      let halfSigmaSqTau := sigma * sigma * tau / 2
      let d1 := (logSH - halfSigmaSqTau) / (sigma * sqrtTau)
      let d2 := (logSH + halfSigmaSqTau) / (sigma * sqrtTau)
      min 1 (max 0 (normalCDF M d1 + S / H * normalCDF M d2))
  else
    -- DOWN barrier: need price to drop to H
    if S ≤ H then 1
    else if tau ≤ 0 ∨ sigma ≤ 0 then 0
    else
      let sqrtTau := M.sqrt tau
      let logHS := M.log (H / S)
      let halfSigmaSqTau := sigma * sigma * tau / 2
      let e1 := (logHS + halfSigmaSqTau) / (sigma * sqrtTau)
      let e2 := (logHS - halfSigmaSqTau) / (sigma * sqrtTau)
      min 1 (max 0 (normalCDF M e1 + S / H * normalCDF M e2))

/-- The engine's two option types. -/
inductive OptionType where
  | above
  | hit
  deriving DecidableEq, Repr

/-- The side of a position (`'YES' | 'NO'`). -/
inductive Side where
  | yes
  | no
  deriving DecidableEq, Repr

/-- The fields of a `SelectedStrike` the engine reads. -/
structure SelectedStrike where
  strikePrice : ℚ
  impliedVol : ℚ
  entryPrice : ℚ
  side : Side
  isUpBarrier : Bool
  deriving DecidableEq, Repr

/-- A `ProjectionPoint` of the P&L curves. -/
structure ProjectionPoint where
  cryptoPrice : ℚ
  pnl : ℚ
  deriving DecidableEq, Repr

/-- `priceOptionYes`: the unified YES pricer dispatching on the option
type. -/
def priceOptionYes (M : MathLib) (S K sigma tau : ℚ) (optionType : OptionType)
    (isUpBarrier : Bool) : ℚ :=
  match optionType with
  | .above => priceAbove M S K sigma tau
  | .hit => priceHit M S K sigma tau isUpBarrier

/-- The volatilities visited by the solver's fallback grid scan
(`sigma = 0.05; sigma <= 10.0; sigma += 0.05`, exact arithmetic). -/
def gridSigmas : List ℚ := (List.range 200).map (fun (k : ℕ) => ((k : ℚ) + 1) / 20)

/-- The fallback linear scan of `solveImpliedVol`: starting from the lower
bracket endpoint `a` (with error `|fa|`), keep the volatility minimizing
`|f sigma|` over the grid. -/
def gridScan (f : ℚ → ℚ) (a fa : ℚ) : ℚ :=
  (gridSigmas.foldl
    (fun best sigma =>
      let err := |f sigma|
      if err < best.2 then (sigma, err) else best)
    (a, |fa|)).1

/-- The mutable locals of the Brent iteration in `solveImpliedVol`. -/
structure BrentState where
  a : ℚ
  b : ℚ
  c : ℚ
  d : ℚ
  e : ℚ
  fa : ℚ
  fb : ℚ
  fc : ℚ
  deriving DecidableEq, Repr

/-- The two rebracketing blocks at the top of each Brent iteration:
re-anchor `c` when `fb` and `fc` share a sign, then swap so that `b` holds
the smaller residual. -/
def brentPrep (st : BrentState) : BrentState :=
  let st1 :=
    if 0 < st.fb * st.fc then
      { st with c := st.a, fc := st.fa, d := st.b - st.a, e := st.b - st.a }
    else st
  if |st1.fc| < |st1.fb| then
    { st1 with a := st1.b, b := st1.c, c := st1.b, fa := st1.fb, fb := st1.fc, fc := st1.fb }
  else st1

/-- The raw interpolation pair `(p, q)` of a Brent iteration: secant when
`a = c`, inverse quadratic interpolation otherwise (`m` is the bracket
half-width `(c − b)/2`). -/
def brentPQ (m : ℚ) (st : BrentState) : ℚ × ℚ :=
  let s := st.fb / st.fa
  if st.a = st.c then
    -- secant method
    (2 * m * s, 1 - s)
  else
    -- inverse quadratic interpolation
    let q := st.fa / st.fc
    let r := st.fb / st.fc
    (s * (2 * m * q * (q - r) - (st.b - st.a) * (r - 1)), (q - 1) * (r - 1) * (s - 1))

/-- The step-selection block of a Brent iteration: try secant or inverse
quadratic interpolation, fall back to bisection; returns the new `(d, e)`
pair. -/
def brentDelta (tolerance : ℚ) (st : BrentState) : ℚ × ℚ :=
  let tol := 2 * numberEpsilon * |st.b| + tolerance
  let m := (st.c - st.b) / 2
  if tol ≤ |st.e| ∧ |st.fb| < |st.fa| then
    let pq := brentPQ m st
    let pq2 : ℚ × ℚ := if 0 < pq.1 then (pq.1, -pq.2) else (-pq.1, pq.2)
    if 2 * pq2.1 < min (3 * m * pq2.2 - |tol * pq2.2|) |st.e * pq2.2| then
      (pq2.1 / pq2.2, st.d)
    else (m, m)
  else (m, m)

/-- The tail of a Brent iteration: shift `a` to the old `b`, move `b` by
the chosen step (at least `tol` in the direction of `m`), and re-evaluate
`fb`. -/
def brentAdvance (f : ℚ → ℚ) (tolerance : ℚ) (st : BrentState) : BrentState :=
  let tol := 2 * numberEpsilon * |st.b| + tolerance
  let m := (st.c - st.b) / 2
  let de := brentDelta tolerance st
  let bNew := st.b + (if tol < |de.1| then de.1 else if 0 < m then tol else -tol)
  { a := st.b, b := bNew, c := st.c, d := de.1, e := de.2,
    fa := st.fb, fb := f bNew, fc := st.fc }

/-- The Brent loop of `solveImpliedVol`: at most `fuel` iterations, each
exiting early when the bracket half-width is below `tol` or the residual
`|fb|` is below `tolerance`; when the fuel is exhausted the current best
estimate `b` is returned. -/
def brentLoop (f : ℚ → ℚ) (tolerance : ℚ) : ℕ → BrentState → ℚ
  | 0, st => st.b
  | n + 1, st =>
    let st2 := brentPrep st
    if |(st2.c - st2.b) / 2| ≤ 2 * numberEpsilon * |st2.b| + tolerance ∨ |st2.fb| < tolerance
    then st2.b
    else brentLoop f tolerance n (brentAdvance f tolerance st2)

/-- Observer of the Brent loop that reports the returned estimate only when
the loop exits through its residual test `|fb| < tolerance` (and `none` on
a width exit or when the iteration budget runs out). -/
def brentExitResidual (f : ℚ → ℚ) (tolerance : ℚ) : ℕ → BrentState → Option ℚ
  | 0, _ => none
  | n + 1, st =>
    let st2 := brentPrep st
    if |(st2.c - st2.b) / 2| ≤ 2 * numberEpsilon * |st2.b| + tolerance ∨ |st2.fb| < tolerance
    then (if |st2.fb| < tolerance then some st2.b else none)
    else brentExitResidual f tolerance n (brentAdvance f tolerance st2)

/-- Number of Brent iterations actually entered before the loop returns
(each early exit counts the iteration that performed the check). -/
def brentIters (f : ℚ → ℚ) (tolerance : ℚ) : ℕ → BrentState → ℕ
  | 0, _ => 0
  | n + 1, st =>
    let st2 := brentPrep st
    if |(st2.c - st2.b) / 2| ≤ 2 * numberEpsilon * |st2.b| + tolerance ∨ |st2.fb| < tolerance
    then 1
    else 1 + brentIters f tolerance n (brentAdvance f tolerance st2)

/-- The initial Brent state of `solveImpliedVol` over bracket `[a, b]`:
`c = a`, `fc = fa`, `d = e = b - a`. -/
def brentInit (a b fa fb : ℚ) : BrentState :=
  { a := a, b := b, c := a, d := b - a, e := b - a, fa := fa, fb := fb, fc := fa }

/-- `solveImpliedVol(S, K, tau, yesPrice, optionType, isUpBarrier,
tolerance, maxIter)`: sentinel edge policy, bracket check with grid-scan
fallback, then Brent's method on `[0.01, 10.0]`. -/
def solveImpliedVol (M : MathLib) (S K tau yesPrice : ℚ) (optionType : OptionType)
    (isUpBarrier : Bool) (tolerance : ℚ) (maxIter : ℕ) : Option ℚ :=
  if yesPrice ≤ 0.001 then some 0.01
  else if 0.999 ≤ yesPrice then some 10.0
  else if tau ≤ 0 then none
  else
    let a : ℚ := 0.01
    let b : ℚ := 10.0
    let f := fun sigma => priceOptionYes M S K sigma tau optionType isUpBarrier - yesPrice
    let fa := f a
    let fb := f b
    if 0 < fa * fb then some (gridScan f a fa)
    else some (brentLoop f tolerance maxIter (brentInit a b fa fb))

/-- Per-strike contribution to the projected portfolio value at spot `S`:
the YES model price for a YES position, its complement for a NO
position. -/
def strikeValue (M : MathLib) (tau : ℚ) (optionType : OptionType)
    (S : ℚ) (strike : SelectedStrike) : ℚ :=
  let yesPrice := priceOptionYes M S strike.strikePrice strike.impliedVol tau optionType strike.isUpBarrier
  if strike.side = Side.yes then yesPrice else 1 - yesPrice

/-- `computePnlCurve(strikes, lowerPrice, upperPrice, tau, optionType,
numPoints)`: the P&L projection curve (projected portfolio value minus
total entry cost at each of `numPoints` evenly spaced spots). -/
def computePnlCurve (M : MathLib) (strikes : List SelectedStrike)
    (lowerPrice upperPrice tau : ℚ) (optionType : OptionType) (numPoints : ℕ) :
    List ProjectionPoint :=
  if strikes.length = 0 ∨ numPoints < 2 then []
  else
    let totalEntry := strikes.foldl (fun sum s => sum + s.entryPrice) 0
    let step := (upperPrice - lowerPrice) / ((numPoints : ℚ) - 1)
    (List.range numPoints).map (fun (i : ℕ) =>
      let cryptoPrice := lowerPrice + step * (i : ℚ)
      let projectedValue := strikes.foldl
        (fun acc strike => acc + strikeValue M tau optionType cryptoPrice strike) 0
      { cryptoPrice := cryptoPrice, pnl := projectedValue - totalEntry })

/-- Per-strike YES payoff at expiry (`tau → 0`): for `'hit'` the step
depends on the barrier direction, for `'above'` it is the standard step at
the strike. -/
def expiryYesPayoff (optionType : OptionType) (cryptoPrice : ℚ)
    (strike : SelectedStrike) : ℚ :=
  if optionType = OptionType.hit then
    if strike.isUpBarrier then
      (if strike.strikePrice ≤ cryptoPrice then 1 else 0)
    else
      (if cryptoPrice ≤ strike.strikePrice then 1 else 0)
  else
    (if strike.strikePrice ≤ cryptoPrice then 1 else 0)

/-- `computeExpiryPnl(strikes, lowerPrice, upperPrice, optionType,
numPoints)`: the at-expiry P&L curve built from the step payoffs. -/
def computeExpiryPnl (strikes : List SelectedStrike)
    (lowerPrice upperPrice : ℚ) (optionType : OptionType) (numPoints : ℕ) :
    List ProjectionPoint :=
  if strikes.length = 0 ∨ numPoints < 2 then []
  else
    let totalEntry := strikes.foldl (fun sum s => sum + s.entryPrice) 0
    let step := (upperPrice - lowerPrice) / ((numPoints : ℚ) - 1)
    (List.range numPoints).map (fun (i : ℕ) =>
      let cryptoPrice := lowerPrice + step * (i : ℚ)
      let projectedValue := strikes.foldl
        (fun acc strike =>
          let yesPayoff := expiryYesPayoff optionType cryptoPrice strike
          acc + (if strike.side = Side.yes then yesPayoff else 1 - yesPayoff)) 0
      { cryptoPrice := cryptoPrice, pnl := projectedValue - totalEntry })

/-- A degenerate instantiation of the math primitives, used to evaluate the
engine on concrete inputs whose control flow never consults them (or where
any value serves). -/
def flatMath : MathLib := { log := fun _ => 0, sqrt := fun _ => 0, exp := fun _ => 0 }

/-- A concrete strike used in concrete evaluations. -/
def stk0 : SelectedStrike :=
  { strikePrice := 1, impliedVol := 1, entryPrice := 0, side := Side.yes, isUpBarrier := true }

/-- A concrete instantiation of the math primitives under which the
approximate normal CDF collapses to the unit step function (its
exponential factor vanishes and square roots are 1), used to evaluate the
solver on concrete inputs. -/
def stepMath : MathLib := { log := fun _ => 0, sqrt := fun _ => 1, exp := fun _ => 0 }

/-- Claim C1: for every spot `S`, barrier `B`, volatility `sigma > 0` and
time-to-expiry `tau > 0`, the up-barrier one-touch price returns 1 whenever
`S ≥ B`, and for `S < B` it equals `clamp(Φ(d1) + (S/B)·Φ(d2), 0, 1)` with
`d1 = (ln(S/B) − σ²τ/2)/(σ·√τ)` and `d2 = (ln(S/B) + σ²τ/2)/(σ·√τ)`. -/
theorem priceHit_up_formula (M : MathLib) (S B sigma tau : ℚ)
    (hsigma : 0 < sigma) (htau : 0 < tau) :
    (B ≤ S → priceHit M S B sigma tau true = 1) ∧
    (S < B →
      priceHit M S B sigma tau true =
        min 1 (max 0
          (normalCDF M ((M.log (S / B) - sigma * sigma * tau / 2) / (sigma * M.sqrt tau)) +
            S / B * normalCDF M ((M.log (S / B) + sigma * sigma * tau / 2) / (sigma * M.sqrt tau))))) := by
  constructor
  · intro h
    by_cases hSB : S = B
    · simp [priceHit, hSB]
    · simp [priceHit, hSB, h]
  · intro h
    have h1 : ¬ S = B := ne_of_lt h
    have h2 : ¬ B ≤ S := not_le.mpr h
    have h3 : ¬ (tau ≤ 0 ∨ sigma ≤ 0) := by push_neg; exact ⟨htau, hsigma⟩
    simp [priceHit, h1, h2, h3]

/-- Claim C1 witness: the theorem instantiated at `S = 1`, `B = 2`,
`sigma = 1`, `tau = 1` with the degenerate math primitives. -/
theorem priceHit_up_formula_witness :
    (0:ℚ) < 1 ∧ (0:ℚ) < 1 ∧
      (((2:ℚ) ≤ 1 → priceHit flatMath 1 2 1 1 true = 1) ∧
       ((1:ℚ) < 2 →
         priceHit flatMath 1 2 1 1 true =
           min 1 (max 0
             (normalCDF flatMath ((flatMath.log (1 / 2) - 1 * 1 * 1 / 2) / (1 * flatMath.sqrt 1)) +
               1 / 2 * normalCDF flatMath ((flatMath.log (1 / 2) + 1 * 1 * 1 / 2) / (1 * flatMath.sqrt 1)))))) :=
  ⟨by norm_num, by norm_num, priceHit_up_formula flatMath 1 2 1 1 (by norm_num) (by norm_num)⟩

/-- Claim C4: for every `S > 0` and `K > 0`, `priceAbove` returns
`Φ(d2)` with `d2 = (ln(S/K) − σ²τ/2)/(σ·√τ)` when `tau > 0` and
`sigma > 0` (the spec's formula at `H = 0.5`), and the degenerate step
function `1 if S ≥ K else 0` when `tau ≤ 0` or `sigma ≤ 0`. -/
theorem priceAbove_formula (M : MathLib) (S K sigma tau : ℚ)
    (hS : 0 < S) (hK : 0 < K) :
    (0 < tau → 0 < sigma →
      priceAbove M S K sigma tau =
        normalCDF M ((M.log (S / K) - sigma * sigma * tau / 2) / (sigma * M.sqrt tau))) ∧
    (tau ≤ 0 ∨ sigma ≤ 0 →
      priceAbove M S K sigma tau = if K ≤ S then 1 else 0) := by
  constructor
  · intro ht hs
    simp [priceAbove, not_le.mpr ht, not_le.mpr hs]
  · intro h
    rcases h with h | h
    · simp [priceAbove, h]
    · by_cases ht : tau ≤ 0
      · simp [priceAbove, ht]
      · simp [priceAbove, ht, h]

/-- Claim C4 witness: the theorem instantiated at `S = 1`, `K = 2`,
`sigma = 1`, `tau = 1` with the degenerate math primitives. -/
theorem priceAbove_formula_witness :
    (0:ℚ) < 1 ∧ (0:ℚ) < 2 ∧
      (((0:ℚ) < 1 → (0:ℚ) < 1 →
        priceAbove flatMath 1 2 1 1 =
          normalCDF flatMath ((flatMath.log (1 / 2) - 1 * 1 * 1 / 2) / (1 * flatMath.sqrt 1))) ∧
       ((1:ℚ) ≤ 0 ∨ (1:ℚ) ≤ 0 →
        priceAbove flatMath 1 2 1 1 = if (2:ℚ) ≤ 1 then 1 else 0)) :=
  ⟨by norm_num, by norm_num, priceAbove_formula flatMath 1 2 1 1 (by norm_num) (by norm_num)⟩

/-- A left fold accumulating `+ g s` computes the sum of the mapped list. -/
theorem foldl_add_eq_sum {α : Type} (g : α → ℚ) (l : List α) (init : ℚ) :
    l.foldl (fun acc s => acc + g s) init = init + (l.map g).sum := by
  induction l generalizing init with
  | nil => simp
  | cons x xs ih => simp [ih, add_assoc]

/-- Closed form of the `i`-th point of `computePnlCurve` on a non-degenerate
request. -/
theorem computePnlCurve_get (M : MathLib) (strikes : List SelectedStrike)
    (lower upper tau : ℚ) (ty : OptionType) (n : ℕ)
    (hne : strikes ≠ []) (hn : 2 ≤ n) (i : ℕ) (hi : i < n) :
    (computePnlCurve M strikes lower upper tau ty n)[i]? =
      some { cryptoPrice := lower + (upper - lower) / ((n : ℚ) - 1) * (i : ℚ),
             pnl := (strikes.map
                 (strikeValue M tau ty (lower + (upper - lower) / ((n : ℚ) - 1) * (i : ℚ)))).sum
               - (strikes.map SelectedStrike.entryPrice).sum } := by
  have hg : ¬ (strikes.length = 0 ∨ n < 2) := by
    push_neg
    exact ⟨fun h => hne (by simpa using h), hn⟩
  unfold computePnlCurve
  rw [if_neg hg, List.getElem?_map, List.getElem?_range hi, Option.map_some']
  refine congrArg some ?_
  refine congrArg₂ ProjectionPoint.mk rfl ?_
  rw [foldl_add_eq_sum, foldl_add_eq_sum]
  simp only [zero_add]

/-- Closed form of the `i`-th point of `computeExpiryPnl` on a
non-degenerate request. -/
theorem computeExpiryPnl_get (strikes : List SelectedStrike)
    (lower upper : ℚ) (ty : OptionType) (n : ℕ)
    (hne : strikes ≠ []) (hn : 2 ≤ n) (i : ℕ) (hi : i < n) :
    (computeExpiryPnl strikes lower upper ty n)[i]? =
      some { cryptoPrice := lower + (upper - lower) / ((n : ℚ) - 1) * (i : ℚ),
             pnl := (strikes.map (fun s =>
                 if s.side = Side.yes then
                   expiryYesPayoff ty (lower + (upper - lower) / ((n : ℚ) - 1) * (i : ℚ)) s
                 else 1 - expiryYesPayoff ty (lower + (upper - lower) / ((n : ℚ) - 1) * (i : ℚ)) s)).sum
               - (strikes.map SelectedStrike.entryPrice).sum } := by
  have hg : ¬ (strikes.length = 0 ∨ n < 2) := by
    push_neg
    exact ⟨fun h => hne (by simpa using h), hn⟩
  unfold computeExpiryPnl
  rw [if_neg hg, List.getElem?_map, List.getElem?_range hi, Option.map_some']
  refine congrArg some ?_
  refine congrArg₂ ProjectionPoint.mk rfl ?_
  rw [foldl_add_eq_sum, foldl_add_eq_sum]
  simp only [zero_add]

/-- Claim C3: at every sample spot of a generated curve, the projected
portfolio value (the stored P&L plus the total entry cost) is the sum over
the strikes of the YES model price for YES positions and its complement
for NO positions, each priced at the strike's own volatility. -/
theorem computePnlCurve_portfolio_value (M : MathLib) (strikes : List SelectedStrike)
    (lower upper tau : ℚ) (ty : OptionType) (n : ℕ)
    (hne : strikes ≠ []) (hn : 2 ≤ n) (i : ℕ) (hi : i < n) :
    ∀ pt, (computePnlCurve M strikes lower upper tau ty n)[i]? = some pt →
      pt.pnl + (strikes.map SelectedStrike.entryPrice).sum =
        (strikes.map (fun s =>
          if s.side = Side.yes then
            priceOptionYes M pt.cryptoPrice s.strikePrice s.impliedVol tau ty s.isUpBarrier
          else
            1 - priceOptionYes M pt.cryptoPrice s.strikePrice s.impliedVol tau ty s.isUpBarrier)).sum := by
  intro pt h
  rw [computePnlCurve_get M strikes lower upper tau ty n hne hn i hi] at h
  injection h with h
  subst h
  rw [sub_add_cancel]
  rfl

/-- Claim C3 witness: the theorem instantiated at a one-strike portfolio
sampled at the second point of a two-point curve. -/
theorem computePnlCurve_portfolio_value_witness :
    ([stk0] ≠ ([] : List SelectedStrike)) ∧ (2 ≤ 2) ∧ (1 < 2) ∧
      (∀ pt, (computePnlCurve flatMath [stk0] 0 1 0 OptionType.above 2)[1]? = some pt →
        pt.pnl + ([stk0].map SelectedStrike.entryPrice).sum =
          ([stk0].map (fun s =>
            if s.side = Side.yes then
              priceOptionYes flatMath pt.cryptoPrice s.strikePrice s.impliedVol 0 OptionType.above s.isUpBarrier
            else
              1 - priceOptionYes flatMath pt.cryptoPrice s.strikePrice s.impliedVol 0 OptionType.above s.isUpBarrier)).sum) :=
  ⟨by decide, by norm_num, by norm_num,
    computePnlCurve_portfolio_value flatMath [stk0] 0 1 0 OptionType.above 2
      (by decide) (by norm_num) 1 (by norm_num)⟩

/-- Claim C7: for option type `'hit'`, the expiry payoff generator's
per-strike YES payoff is the direction-aware step function — 1 when
`S_i ≥ K` for an up barrier, 1 when `S_i ≤ K` for a down barrier, 0
otherwise (shown through the projected value at every sample point). -/
theorem computeExpiryPnl_hit_payoff (strikes : List SelectedStrike)
    (lower upper : ℚ) (n : ℕ)
    (hne : strikes ≠ []) (hn : 2 ≤ n) (i : ℕ) (hi : i < n) :
    ∀ pt, (computeExpiryPnl strikes lower upper OptionType.hit n)[i]? = some pt →
      pt.pnl + (strikes.map SelectedStrike.entryPrice).sum =
        (strikes.map (fun s =>
          if s.side = Side.yes then
            (if s.isUpBarrier then (if s.strikePrice ≤ pt.cryptoPrice then (1 : ℚ) else 0)
             else (if pt.cryptoPrice ≤ s.strikePrice then (1 : ℚ) else 0))
          else
            1 - (if s.isUpBarrier then (if s.strikePrice ≤ pt.cryptoPrice then (1 : ℚ) else 0)
                 else (if pt.cryptoPrice ≤ s.strikePrice then (1 : ℚ) else 0)))).sum := by
  intro pt h
  rw [computeExpiryPnl_get strikes lower upper OptionType.hit n hne hn i hi] at h
  injection h with h
  subst h
  rw [sub_add_cancel]
  rfl

/-- Claim C7 witness: the theorem instantiated at a one-strike portfolio
sampled at the second point of a two-point curve. -/
theorem computeExpiryPnl_hit_payoff_witness :
    ([stk0] ≠ ([] : List SelectedStrike)) ∧ (2 ≤ 2) ∧ (1 < 2) ∧
      (∀ pt, (computeExpiryPnl [stk0] 0 1 OptionType.hit 2)[1]? = some pt →
        pt.pnl + ([stk0].map SelectedStrike.entryPrice).sum =
          ([stk0].map (fun s =>
            if s.side = Side.yes then
              (if s.isUpBarrier then (if s.strikePrice ≤ pt.cryptoPrice then (1 : ℚ) else 0)
               else (if pt.cryptoPrice ≤ s.strikePrice then (1 : ℚ) else 0))
            else
              1 - (if s.isUpBarrier then (if s.strikePrice ≤ pt.cryptoPrice then (1 : ℚ) else 0)
                   else (if pt.cryptoPrice ≤ s.strikePrice then (1 : ℚ) else 0)))).sum) :=
  ⟨by decide, by norm_num, by norm_num,
    computeExpiryPnl_hit_payoff [stk0] 0 1 2 (by decide) (by norm_num) 1 (by norm_num)⟩

/-- Claim C6 counterexample: an inverted range (`upper ≤ lower`) with a
non-empty portfolio and `numPoints = 2` is not rejected — the generator
still returns 2 points, not the empty sequence the claim requires. -/
theorem computePnlCurve_inverted_range_cx :
    computePnlCurve flatMath [stk0] 2 1 0 OptionType.above 2 ≠ [] ∧
    (computePnlCurve flatMath [stk0] 2 1 0 OptionType.above 2).length = 2 := by
  constructor <;> decide

/-- Claim C6 (amended): the curve generator returns the empty sequence
when the portfolio is empty or `numPoints < 2`; the `upper ≤ lower`
degenerate case is not guarded against and still yields `numPoints`
points. -/
theorem computePnlCurve_empty_guard (M : MathLib) (strikes : List SelectedStrike)
    (lower upper tau : ℚ) (ty : OptionType) (n : ℕ) :
    ((strikes = [] ∨ n < 2) → computePnlCurve M strikes lower upper tau ty n = []) ∧
    (strikes ≠ [] → 2 ≤ n → (computePnlCurve M strikes lower upper tau ty n).length = n) := by
  constructor
  · intro h
    have hg : strikes.length = 0 ∨ n < 2 := by
      rcases h with h | h
      · exact Or.inl (by simp [h])
      · exact Or.inr h
    unfold computePnlCurve
    rw [if_pos hg]
  · intro hne hn
    have hg : ¬ (strikes.length = 0 ∨ n < 2) := by
      push_neg
      exact ⟨fun h => hne (by simpa using h), hn⟩
    unfold computePnlCurve
    rw [if_neg hg]
    simp

/-- Claim C6 witness: the amended guard at concrete inputs — an empty
portfolio yields the empty curve, a valid request yields `numPoints`
points. -/
theorem computePnlCurve_empty_guard_witness :
    computePnlCurve flatMath [] 0 1 1 OptionType.above 5 = [] ∧
    (computePnlCurve flatMath [stk0] 0 1 1 OptionType.above 5).length = 5 :=
  ⟨(computePnlCurve_empty_guard flatMath [] 0 1 1 OptionType.above 5).1 (Or.inl rfl),
   (computePnlCurve_empty_guard flatMath [stk0] 0 1 1 OptionType.above 5).2 (by decide) (by norm_num)⟩

/-- Claim C8: on a valid request (`numPoints ≥ 2`, `upper > lower`,
non-empty portfolio), the curve has exactly `numPoints` points, the `i`-th
spot is `lower + i·(upper − lower)/(numPoints − 1)` (uniform spacing),
spots are strictly increasing, the first spot is `lower` and the last is
`upper`. -/
theorem computePnlCurve_sampling (M : MathLib) (strikes : List SelectedStrike)
    (lower upper tau : ℚ) (ty : OptionType) (n : ℕ)
    (hne : strikes ≠ []) (hn : 2 ≤ n) (hlt : lower < upper) :
    (computePnlCurve M strikes lower upper tau ty n).length = n ∧
    (∀ i, i < n →
      ((computePnlCurve M strikes lower upper tau ty n)[i]?).map ProjectionPoint.cryptoPrice =
        some (lower + (upper - lower) / ((n : ℚ) - 1) * (i : ℚ))) ∧
    (∀ i j, i < j → j < n → ∀ pti ptj,
      (computePnlCurve M strikes lower upper tau ty n)[i]? = some pti →
      (computePnlCurve M strikes lower upper tau ty n)[j]? = some ptj →
      pti.cryptoPrice < ptj.cryptoPrice) ∧
    ((computePnlCurve M strikes lower upper tau ty n)[0]?).map ProjectionPoint.cryptoPrice =
      some lower ∧
    ((computePnlCurve M strikes lower upper tau ty n)[n - 1]?).map ProjectionPoint.cryptoPrice =
      some upper := by
  have hn1 : (1 : ℚ) ≤ (n : ℚ) - 1 := by
    have : (2 : ℚ) ≤ (n : ℚ) := by exact_mod_cast hn
    linarith
  have hstep : 0 < (upper - lower) / ((n : ℚ) - 1) :=
    div_pos (by linarith) (by linarith)
  have hspot : ∀ i, i < n →
      ((computePnlCurve M strikes lower upper tau ty n)[i]?).map ProjectionPoint.cryptoPrice =
        some (lower + (upper - lower) / ((n : ℚ) - 1) * (i : ℚ)) := by
    intro i hi
    rw [computePnlCurve_get M strikes lower upper tau ty n hne hn i hi]
    rfl
  refine ⟨?_, hspot, ?_, ?_, ?_⟩
  · have hg : ¬ (strikes.length = 0 ∨ n < 2) := by
      push_neg
      exact ⟨fun h => hne (by simpa using h), hn⟩
    unfold computePnlCurve
    rw [if_neg hg]
    simp
  · intro i j hij hj pti ptj hpi hpj
    have h1 := hspot i (lt_trans hij hj)
    have h2 := hspot j hj
    rw [hpi] at h1
    rw [hpj] at h2
    have e1 : pti.cryptoPrice = lower + (upper - lower) / ((n : ℚ) - 1) * (i : ℚ) := by
      simpa using h1
    have e2 : ptj.cryptoPrice = lower + (upper - lower) / ((n : ℚ) - 1) * (j : ℚ) := by
      simpa using h2
    rw [e1, e2]
    have hcast : (i : ℚ) < (j : ℚ) := by exact_mod_cast hij
    have := mul_lt_mul_of_pos_left hcast hstep
    linarith
  · have h0 := hspot 0 (by omega)
    simpa using h0
  · have hlast := hspot (n - 1) (by omega)
    have hcast : ((n - 1 : ℕ) : ℚ) = (n : ℚ) - 1 := by
      have : 1 ≤ n := by omega
      push_cast [this]
      ring
    rw [hcast] at hlast
    rw [hlast]
    have hne1 : ((n : ℚ) - 1) ≠ 0 := by linarith
    rw [div_mul_cancel₀ _ hne1]
    ring_nf

/-- Claim C8 witness: the sampling invariants at a concrete two-point
curve over `[0, 1]`. -/
theorem computePnlCurve_sampling_witness :
    ([stk0] ≠ ([] : List SelectedStrike)) ∧ (2 ≤ 2) ∧ ((0 : ℚ) < 1) ∧
      ((computePnlCurve flatMath [stk0] 0 1 1 OptionType.above 2).length = 2 ∧
       (∀ (i : ℕ), i < 2 →
         ((computePnlCurve flatMath [stk0] 0 1 1 OptionType.above 2)[i]?).map ProjectionPoint.cryptoPrice =
           some (0 + (1 - 0) / (((2 : ℕ) : ℚ) - 1) * (i : ℚ))) ∧
       (∀ (i j : ℕ), i < j → j < 2 → ∀ pti ptj,
         (computePnlCurve flatMath [stk0] 0 1 1 OptionType.above 2)[i]? = some pti →
         (computePnlCurve flatMath [stk0] 0 1 1 OptionType.above 2)[j]? = some ptj →
         pti.cryptoPrice < ptj.cryptoPrice) ∧
       ((computePnlCurve flatMath [stk0] 0 1 1 OptionType.above 2)[0]?).map ProjectionPoint.cryptoPrice =
         some 0 ∧
       ((computePnlCurve flatMath [stk0] 0 1 1 OptionType.above 2)[2 - 1]?).map ProjectionPoint.cryptoPrice =
         some 1) :=
  ⟨by decide, by norm_num, by norm_num,
    computePnlCurve_sampling flatMath [stk0] 0 1 1 OptionType.above 2
      (by decide) (by norm_num) (by norm_num)⟩

/-- Claim C5 counterexample: an expired contract (`tau = 0`) whose
`yesPrice` is at the floor sentinel returns `0.01`, not `null` — the
sentinel checks run before the `tau ≤ 0` check. -/
theorem solveImpliedVol_expired_not_null_cx :
    solveImpliedVol flatMath 1 1 0 0.0005 OptionType.above true 0.000001 100 = some 0.01 ∧
    solveImpliedVol flatMath 1 1 0 0.0005 OptionType.above true 0.000001 100 ≠ none := by
  constructor
  · norm_num [solveImpliedVol]
  · intro h
    norm_num [solveImpliedVol] at h
    exact Option.noConfusion h

/-- Claim C5 (amended): the edge policy applies in order — `yesPrice ≤
0.001` returns the floor vol `0.01`; otherwise `yesPrice ≥ 0.999` returns
the ceiling vol `10.0`; otherwise `tau ≤ 0` returns `null`. -/
theorem solveImpliedVol_edge_policy (M : MathLib) (S K tau yesPrice : ℚ)
    (ty : OptionType) (up : Bool) (tolerance : ℚ) (maxIter : ℕ) :
    (yesPrice ≤ 0.001 →
      solveImpliedVol M S K tau yesPrice ty up tolerance maxIter = some 0.01) ∧
    (0.001 < yesPrice → 0.999 ≤ yesPrice →
      solveImpliedVol M S K tau yesPrice ty up tolerance maxIter = some 10.0) ∧
    (0.001 < yesPrice → yesPrice < 0.999 → tau ≤ 0 →
      solveImpliedVol M S K tau yesPrice ty up tolerance maxIter = none) := by
  refine ⟨?_, ?_, ?_⟩
  · intro h
    unfold solveImpliedVol
    rw [if_pos h]
  · intro h1 h2
    unfold solveImpliedVol
    rw [if_neg (not_le.mpr h1), if_pos h2]
  · intro h1 h2 h3
    unfold solveImpliedVol
    rw [if_neg (not_le.mpr h1), if_neg (not_le.mpr h2), if_pos h3]

/-- Claim C5 witness: the three edge policies at concrete inputs. -/
theorem solveImpliedVol_edge_policy_witness :
    ((0.0005 : ℚ) ≤ 0.001) ∧ ((0.001 : ℚ) < 0.9995) ∧ ((0.999 : ℚ) ≤ 0.9995) ∧
    ((0.001 : ℚ) < 0.5) ∧ ((0.5 : ℚ) < 0.999) ∧ ((0 : ℚ) ≤ 0) ∧
    solveImpliedVol flatMath 1 2 1 0.0005 OptionType.above true 0.000001 100 = some 0.01 ∧
    solveImpliedVol flatMath 1 2 1 0.9995 OptionType.above true 0.000001 100 = some 10.0 ∧
    solveImpliedVol flatMath 1 2 0 0.5 OptionType.above true 0.000001 100 = none :=
  ⟨by norm_num, by norm_num, by norm_num, by norm_num, by norm_num, le_refl 0,
   (solveImpliedVol_edge_policy flatMath 1 2 1 0.0005 OptionType.above true 0.000001 100).1
     (by norm_num),
   (solveImpliedVol_edge_policy flatMath 1 2 1 0.9995 OptionType.above true 0.000001 100).2.1
     (by norm_num) (by norm_num),
   (solveImpliedVol_edge_policy flatMath 1 2 0 0.5 OptionType.above true 0.000001 100).2.2
     (by norm_num) (by norm_num) (by norm_num)⟩

/-- The Brent iteration count never exceeds the fuel. -/
theorem brentIters_le (f : ℚ → ℚ) (tolerance : ℚ) :
    ∀ (fuel : ℕ) (st : BrentState), brentIters f tolerance fuel st ≤ fuel := by
  intro fuel
  induction fuel with
  | zero => intro st; exact le_refl 0
  | succ n ih =>
    intro st
    unfold brentIters
    dsimp only
    split
    · omega
    · have := ih (brentAdvance f tolerance (brentPrep st))
      omega

/-- Claim C9: the solver terminates on every input — the Brent phase
executes at most `maxIter` iterations, an exhausted iteration budget
returns the current best estimate `b`, and the solver returns a value on
every input except the expired-contract case (`tau ≤ 0` with a `yesPrice`
strictly between the sentinels), where it returns `none`. -/
theorem solveImpliedVol_terminates (M : MathLib) (S K tau yesPrice : ℚ)
    (ty : OptionType) (up : Bool) (tolerance : ℚ) (maxIter : ℕ) :
    brentIters (fun sigma => priceOptionYes M S K sigma tau ty up - yesPrice) tolerance maxIter
        (brentInit 0.01 10.0
          (priceOptionYes M S K 0.01 tau ty up - yesPrice)
          (priceOptionYes M S K 10.0 tau ty up - yesPrice)) ≤ maxIter ∧
    (∀ (f : ℚ → ℚ) (st : BrentState), brentLoop f tolerance 0 st = st.b) ∧
    (solveImpliedVol M S K tau yesPrice ty up tolerance maxIter = none ↔
      0.001 < yesPrice ∧ yesPrice < 0.999 ∧ tau ≤ 0) := by
  refine ⟨brentIters_le _ _ _ _, fun f st => rfl, ?_, ?_⟩
  · intro h
    unfold solveImpliedVol at h
    by_cases h1 : yesPrice ≤ (0.001 : ℚ)
    · rw [if_pos h1] at h
      exact absurd h (by simp)
    · rw [if_neg h1] at h
      by_cases h2 : (0.999 : ℚ) ≤ yesPrice
      · rw [if_pos h2] at h
        exact absurd h (by simp)
      · rw [if_neg h2] at h
        by_cases h3 : tau ≤ 0
        · exact ⟨not_le.mp h1, not_le.mp h2, h3⟩
        · rw [if_neg h3] at h
          dsimp only at h
          split at h
          · exact absurd h (by simp)
          · exact absurd h (by simp)
  · rintro ⟨h1, h2, h3⟩
    unfold solveImpliedVol
    rw [if_neg (not_le.mpr h1), if_neg (not_le.mpr h2), if_pos h3]

/-- An accepted interpolation step lands strictly inside the current
bracket: when `0 ≤ p` and `2p < 3·m·q − |tol·q|` with `m = (c − b)/2`, the
update `b + p/q` stays between `b` and `c`. -/
theorem interp_step_between (b c tol p q : ℚ) (hp : 0 ≤ p)
    (hacc : 2 * p < 3 * ((c - b) / 2) * q - |tol * q|) :
    min b c ≤ b + p / q ∧ b + p / q ≤ max b c := by
  have habs : 0 ≤ |tol * q| := abs_nonneg _
  rcases lt_trichotomy q 0 with hq | hq | hq
  · have h3 : 0 < 3 * ((c - b) / 2) * q := by linarith
    have hcb : c < b := by
      by_contra hx
      push_neg at hx
      have hm : 0 ≤ 3 * ((c - b) / 2) := by linarith
      have := mul_nonpos_of_nonneg_of_nonpos hm hq.le
      linarith
    have hdq : p / q ≤ 0 := div_nonpos_iff.mpr (Or.inl ⟨hp, hq.le⟩)
    have ht : (3 : ℚ) / 4 * (c - b) < p / q := by
      rw [lt_div_iff_of_neg hq]
      nlinarith
    constructor
    · rw [min_eq_right hcb.le]
      linarith
    · rw [max_eq_left hcb.le]
      linarith
  · exfalso
    rw [hq] at hacc
    simp at hacc
    linarith
  · have h3 : 0 < 3 * ((c - b) / 2) * q := by linarith
    have hbc : b < c := by
      by_contra hx
      push_neg at hx
      have hm : 3 * ((c - b) / 2) ≤ 0 := by linarith
      have := mul_nonpos_of_nonpos_of_nonneg hm hq.le
      linarith
    have hdq : 0 ≤ p / q := div_nonneg hp hq.le
    have ht : p / q < (3 : ℚ) / 4 * (c - b) := by
      rw [div_lt_iff hq]
      nlinarith
    constructor
    · rw [min_eq_left hbc.le]
      linarith
    · rw [max_eq_right hbc.le]
      linarith

/-- The first component of the sign-adjusted `(p, q)` pair is
non-negative. -/
theorem pq2_fst_nonneg (x y : ℚ) : 0 ≤ (if 0 < x then (x, -y) else (-x, y)).1 := by
  split
  · next h => exact le_of_lt h
  · next h =>
    push_neg at h
    dsimp only
    linarith

set_option maxHeartbeats 1600000 in
/-- The step chosen by `brentDelta` is either the bisection midpoint
offset or lands between `b` and `c`. -/
theorem brentDelta_fst_between (tolerance : ℚ) (st : BrentState) :
    (brentDelta tolerance st).1 = (st.c - st.b) / 2 ∨
    (min st.b st.c ≤ st.b + (brentDelta tolerance st).1 ∧
     st.b + (brentDelta tolerance st).1 ≤ max st.b st.c) := by
  unfold brentDelta
  dsimp only
  split
  · split
    · next hpos =>
      split
      · next hacc =>
        right
        dsimp only at hacc ⊢
        exact interp_step_between st.b st.c (2 * numberEpsilon * |st.b| + tolerance) _ _
          (le_of_lt hpos) (lt_of_lt_of_le hacc (min_le_left _ _))
      · left; rfl
    · next hneg =>
      split
      · next hacc =>
        right
        dsimp only at hacc ⊢
        push_neg at hneg
        exact interp_step_between st.b st.c (2 * numberEpsilon * |st.b| + tolerance) _ _
          (by linarith) (lt_of_lt_of_le hacc (min_le_left _ _))
      · left; rfl
  · left; rfl

set_option maxHeartbeats 1600000 in
/-- When the exit test fails (`tol < |m|`), the Brent advance keeps `b`
between the old `b` and `c`. -/
theorem brentAdvance_b_between (f : ℚ → ℚ) (tolerance : ℚ) (st : BrentState)
    (hm : 2 * numberEpsilon * |st.b| + tolerance < |(st.c - st.b) / 2|) :
    min st.b st.c ≤ (brentAdvance f tolerance st).b ∧
    (brentAdvance f tolerance st).b ≤ max st.b st.c := by
  have hd := brentDelta_fst_between tolerance st
  unfold brentAdvance
  dsimp only
  split
  · rcases hd with hd | hd
    · rw [hd]
      rcases le_total st.b st.c with h | h
      · rw [min_eq_left h, max_eq_right h]
        constructor <;> linarith
      · rw [min_eq_right h, max_eq_left h]
        constructor <;> linarith
    · exact hd
  · next hsmall =>
    have htol0 : 0 ≤ 2 * numberEpsilon * |st.b| + tolerance :=
      le_trans (abs_nonneg _) (not_lt.mp hsmall)
    split
    · next hm0 =>
      have hmm : 2 * numberEpsilon * |st.b| + tolerance < (st.c - st.b) / 2 := by
        rwa [abs_of_pos hm0] at hm
      have hbc : st.b ≤ st.c := by linarith
      rw [min_eq_left hbc, max_eq_right hbc]
      constructor <;> linarith
    · next hm0 =>
      have hmm : 2 * numberEpsilon * |st.b| + tolerance < -((st.c - st.b) / 2) := by
        rwa [abs_of_nonpos (not_lt.mp hm0)] at hm
      have hbc : st.c ≤ st.b := by linarith
      rw [min_eq_right hbc, max_eq_left hbc]
      constructor <;> linarith

/-- `brentPrep` only permutes `a`, `b`, `c` among the previous `a`, `b`,
`c`, so interval bounds on all three are preserved. -/
theorem brentPrep_bounds (st : BrentState) (lo hi : ℚ)
    (ha1 : lo ≤ st.a) (ha2 : st.a ≤ hi) (hb1 : lo ≤ st.b) (hb2 : st.b ≤ hi)
    (hc1 : lo ≤ st.c) (hc2 : st.c ≤ hi) :
    (lo ≤ (brentPrep st).a ∧ (brentPrep st).a ≤ hi) ∧
    (lo ≤ (brentPrep st).b ∧ (brentPrep st).b ≤ hi) ∧
    (lo ≤ (brentPrep st).c ∧ (brentPrep st).c ≤ hi) := by
  unfold brentPrep
  dsimp only
  split
  · split
    · exact ⟨⟨hb1, hb2⟩, ⟨ha1, ha2⟩, ⟨hb1, hb2⟩⟩
    · exact ⟨⟨ha1, ha2⟩, ⟨hb1, hb2⟩, ⟨ha1, ha2⟩⟩
  · split
    · exact ⟨⟨hb1, hb2⟩, ⟨hc1, hc2⟩, ⟨hb1, hb2⟩⟩
    · exact ⟨⟨ha1, ha2⟩, ⟨hb1, hb2⟩, ⟨hc1, hc2⟩⟩

/-- The Brent loop's result stays inside the calibration bracket
`[0.01, 10.0]` whenever the state's `a`, `b`, `c` start inside it. -/
theorem brentLoop_mem (f : ℚ → ℚ) (tolerance : ℚ) :
    ∀ (fuel : ℕ) (st : BrentState),
      0.01 ≤ st.a → st.a ≤ 10.0 → 0.01 ≤ st.b → st.b ≤ 10.0 → 0.01 ≤ st.c → st.c ≤ 10.0 →
      0.01 ≤ brentLoop f tolerance fuel st ∧ brentLoop f tolerance fuel st ≤ 10.0 := by
  intro fuel
  induction fuel with
  | zero =>
    intro st _ _ hb1 hb2 _ _
    exact ⟨hb1, hb2⟩
  | succ n ih =>
    intro st ha1 ha2 hb1 hb2 hc1 hc2
    obtain ⟨⟨pa1, pa2⟩, ⟨pb1, pb2⟩, ⟨pc1, pc2⟩⟩ :=
      brentPrep_bounds st 0.01 10.0 ha1 ha2 hb1 hb2 hc1 hc2
    unfold brentLoop
    dsimp only
    split
    · exact ⟨pb1, pb2⟩
    · next hexit =>
      push_neg at hexit
      obtain ⟨hm, -⟩ := hexit
      have hbtw := brentAdvance_b_between f tolerance (brentPrep st) hm
      exact ih (brentAdvance f tolerance (brentPrep st)) pb1 pb2
        (le_trans (le_min pb1 pc1) hbtw.1) (le_trans hbtw.2 (max_le pb2 pc2)) pc1 pc2

/-- Every grid volatility lies in `[1/20, 10]`. -/
theorem gridSigmas_bounds : ∀ x ∈ gridSigmas, (1/20 : ℚ) ≤ x ∧ x ≤ 10.0 := by
  intro x hx
  unfold gridSigmas at hx
  rw [List.mem_map] at hx
  obtain ⟨k, hk, rfl⟩ := hx
  rw [List.mem_range] at hk
  have h1 : (0 : ℚ) ≤ (k : ℚ) := Nat.cast_nonneg k
  have h2 : (k : ℚ) ≤ 199 := by exact_mod_cast Nat.lt_succ_iff.mp hk
  constructor
  · rw [le_div_iff (by norm_num : (0 : ℚ) < 20)]
    linarith
  · rw [div_le_iff (by norm_num : (0 : ℚ) < 20)]
    norm_num
    linarith

/-- The grid scan started from the lower bracket endpoint returns a value
inside the calibration bracket. -/
theorem gridScan_bounds (f : ℚ → ℚ) (fa : ℚ) :
    0.01 ≤ gridScan f 0.01 fa ∧ gridScan f 0.01 fa ≤ 10.0 := by
  unfold gridScan
  have key : ∀ (l : List ℚ), (∀ x ∈ l, (1/20 : ℚ) ≤ x ∧ x ≤ 10.0) →
      ∀ acc : ℚ × ℚ, 0.01 ≤ acc.1 → acc.1 ≤ 10.0 →
      0.01 ≤ (l.foldl (fun best sigma =>
        let err := |f sigma|
        if err < best.2 then (sigma, err) else best) acc).1 ∧
      (l.foldl (fun best sigma =>
        let err := |f sigma|
        if err < best.2 then (sigma, err) else best) acc).1 ≤ 10.0 := by
    intro l
    induction l with
    | nil =>
      intro _ acc h1 h2
      exact ⟨h1, h2⟩
    | cons x xs ih =>
      intro hmem acc h1 h2
      rw [List.foldl_cons]
      dsimp only
      obtain ⟨hx1, hx2⟩ := hmem x (List.mem_cons_self x xs)
      have hrest := fun y hy => hmem y (List.mem_cons_of_mem x hy)
      split
      · exact ih hrest (x, |f x|) (by dsimp only; linarith) (by dsimp only; linarith)
      · exact ih hrest acc h1 h2
  exact key gridSigmas gridSigmas_bounds (0.01, |fa|) le_rfl (by norm_num)

/-- Claim C10: whenever `solveImpliedVol` returns a number, that number
lies inside the calibration bracket `[0.01, 10.0]` — the sentinel returns
are the endpoints, the grid-scan fallback returns grid values or the
lower endpoint, and Brent's iterates stay inside the bracket. -/
theorem solveImpliedVol_in_bracket (M : MathLib) (S K tau yesPrice : ℚ)
    (ty : OptionType) (up : Bool) (tolerance : ℚ) (maxIter : ℕ) (v : ℚ)
    (h : solveImpliedVol M S K tau yesPrice ty up tolerance maxIter = some v) :
    0.01 ≤ v ∧ v ≤ 10.0 := by
  unfold solveImpliedVol at h
  by_cases h1 : yesPrice ≤ (0.001 : ℚ)
  · rw [if_pos h1] at h
    injection h with h
    subst h
    norm_num
  · rw [if_neg h1] at h
    by_cases h2 : (0.999 : ℚ) ≤ yesPrice
    · rw [if_pos h2] at h
      injection h with h
      subst h
      norm_num
    · rw [if_neg h2] at h
      by_cases h3 : tau ≤ 0
      · rw [if_pos h3] at h
        exact Option.noConfusion h
      · rw [if_neg h3] at h
        dsimp only at h
        split at h
        · injection h with h
          subst h
          exact gridScan_bounds _ _
        · injection h with h
          subst h
          exact brentLoop_mem _ tolerance maxIter _
            le_rfl (by show (0.01 : ℚ) ≤ 10.0; norm_num)
            (by show (0.01 : ℚ) ≤ 10.0; norm_num) le_rfl
            le_rfl (by show (0.01 : ℚ) ≤ 10.0; norm_num)

/-- Claim C10 witness: the theorem at a concrete sentinel input, where the
solver returns the lower endpoint `0.01`. -/
theorem solveImpliedVol_in_bracket_witness :
    (0.01 : ℚ) ≤ 0.01 ∧ (0.01 : ℚ) ≤ 10.0 :=
  solveImpliedVol_in_bracket flatMath 3 1 1 0.001 OptionType.above true 0.000001 100 0.01
    (by norm_num [solveImpliedVol])

/-- `brentPrep` preserves the invariant that `fa`, `fb`, `fc` hold the
residuals of `a`, `b`, `c`. -/
theorem brentPrep_f_inv (f : ℚ → ℚ) (st : BrentState)
    (ha : st.fa = f st.a) (hb : st.fb = f st.b) (hc : st.fc = f st.c) :
    (brentPrep st).fa = f (brentPrep st).a ∧
    (brentPrep st).fb = f (brentPrep st).b ∧
    (brentPrep st).fc = f (brentPrep st).c := by
  unfold brentPrep
  dsimp only
  split
  · split
    · exact ⟨hb, ha, hb⟩
    · exact ⟨ha, hb, ha⟩
  · split
    · exact ⟨hb, hc, hb⟩
    · exact ⟨ha, hb, hc⟩

/-- `brentAdvance` preserves the residual invariant. -/
theorem brentAdvance_f_inv (f : ℚ → ℚ) (tolerance : ℚ) (st : BrentState)
    (hb : st.fb = f st.b) (hc : st.fc = f st.c) :
    (brentAdvance f tolerance st).fa = f (brentAdvance f tolerance st).a ∧
    (brentAdvance f tolerance st).fb = f (brentAdvance f tolerance st).b ∧
    (brentAdvance f tolerance st).fc = f (brentAdvance f tolerance st).c :=
  ⟨hb, rfl, hc⟩

/-- When the residual observer reports a value, the Brent loop returns that
value and its residual is below the tolerance. -/
theorem brentExitResidual_sound (f : ℚ → ℚ) (tolerance : ℚ) :
    ∀ (fuel : ℕ) (st : BrentState),
      st.fa = f st.a → st.fb = f st.b → st.fc = f st.c →
      ∀ v, brentExitResidual f tolerance fuel st = some v →
        brentLoop f tolerance fuel st = v ∧ |f v| < tolerance := by
  intro fuel
  induction fuel with
  | zero =>
    intro st _ _ _ v h
    exact Option.noConfusion h
  | succ n ih =>
    intro st ha hb hc v h
    obtain ⟨pa, pb, pc⟩ := brentPrep_f_inv f st ha hb hc
    unfold brentExitResidual at h
    unfold brentLoop
    dsimp only at h ⊢
    split at h
    · next hex =>
      split at h
      · next hres =>
        injection h with h
        subst h
        rw [if_pos hex]
        exact ⟨rfl, by rw [← pb]; exact hres⟩
      · exact Option.noConfusion h
    · next hex =>
      obtain ⟨qa, qb, qc⟩ := brentAdvance_f_inv f tolerance (brentPrep st) pb pc
      rw [if_neg hex]
      exact ih (brentAdvance f tolerance (brentPrep st)) qa qb qc v h

/-- A first-iteration residual exit of the observer. -/
theorem brentExitResidual_exit (f : ℚ → ℚ) (tolerance : ℚ) (fuel : ℕ) (st : BrentState)
    (h1 : |((brentPrep st).c - (brentPrep st).b) / 2| ≤
        2 * numberEpsilon * |(brentPrep st).b| + tolerance ∨ |(brentPrep st).fb| < tolerance)
    (h2 : |(brentPrep st).fb| < tolerance) :
    brentExitResidual f tolerance (fuel + 1) st = some (brentPrep st).b := by
  unfold brentExitResidual
  dsimp only
  rw [if_pos h1, if_pos h2]

/-- A best-so-far fold over candidates none of which strictly improves the
error leaves the accumulator unchanged. -/
theorem foldl_best_no_update (f : ℚ → ℚ) :
    ∀ (l : List ℚ) (acc : ℚ × ℚ), (∀ x ∈ l, ¬ |f x| < acc.2) →
      l.foldl (fun best sigma =>
        let err := |f sigma|
        if err < best.2 then (sigma, err) else best) acc = acc := by
  intro l
  induction l with
  | nil =>
    intro acc _
    rfl
  | cons x xs ih =>
    intro acc h
    rw [List.foldl_cons]
    dsimp only
    rw [if_neg (h x (List.mem_cons_self x xs))]
    exact ih acc (fun y hy => h y (List.mem_cons_of_mem x hy))

/-- Claim C2 counterexample: for a deep in-the-money one-touch contract
(`S = 2 ≥ K = 1`, up barrier) the model price is 1 for every volatility,
so the target `p = 1/2` is unreachable; the solver's grid fallback returns
`0.01` and re-pricing gives 1, off by `1/2`, far beyond the `1e-4`
round-trip tolerance the claim requires. -/
theorem solveImpliedVol_roundTrip_cx :
    solveImpliedVol flatMath 2 1 1 (1/2) OptionType.hit true 0.000001 100 = some 0.01 ∧
    ¬ |priceOptionYes flatMath 2 1 0.01 1 OptionType.hit true - 1/2| ≤ 0.0001 := by
  have hhit : ∀ sigma : ℚ, priceOptionYes flatMath 2 1 sigma 1 OptionType.hit true = 1 := by
    intro sigma
    norm_num [priceOptionYes, priceHit]
  constructor
  · unfold solveImpliedVol
    rw [if_neg (by norm_num), if_neg (by norm_num), if_neg (by norm_num)]
    dsimp only
    rw [if_pos (by rw [hhit, hhit]; norm_num)]
    refine congrArg some ?_
    unfold gridScan
    rw [foldl_best_no_update]
    intro x hx
    simp only [hhit]
    norm_num
  · rw [hhit]
    norm_num
    rw [abs_of_pos] <;> norm_num

/-- Claim C2 (amended): the universal round-trip fails (see the
counterexample), but it does hold on every run in which the root is
bracketed (`f(0.01)·f(10.0) ≤ 0`) and Brent's iteration returns through
its residual test with a tolerance of at most `1e-4`: re-pricing at the
returned volatility then reproduces the target within `1e-4`. -/
theorem solveImpliedVol_roundTrip_residual (M : MathLib) (S K tau yesPrice : ℚ)
    (ty : OptionType) (up : Bool) (tolerance : ℚ) (maxIter : ℕ) (sigma : ℚ)
    (hp1 : (0.001 : ℚ) < yesPrice) (hp2 : yesPrice < 0.999) (htau : 0 < tau)
    (htol : tolerance ≤ 0.0001)
    (hbr : ¬ 0 < (priceOptionYes M S K 0.01 tau ty up - yesPrice) *
        (priceOptionYes M S K 10.0 tau ty up - yesPrice))
    (hexit : brentExitResidual (fun s => priceOptionYes M S K s tau ty up - yesPrice)
        tolerance maxIter
        (brentInit 0.01 10.0 (priceOptionYes M S K 0.01 tau ty up - yesPrice)
          (priceOptionYes M S K 10.0 tau ty up - yesPrice)) = some sigma) :
    solveImpliedVol M S K tau yesPrice ty up tolerance maxIter = some sigma ∧
    |priceOptionYes M S K sigma tau ty up - yesPrice| ≤ 0.0001 := by
  have hsound := brentExitResidual_sound
    (fun s => priceOptionYes M S K s tau ty up - yesPrice) tolerance maxIter
    (brentInit 0.01 10.0 (priceOptionYes M S K 0.01 tau ty up - yesPrice)
      (priceOptionYes M S K 10.0 tau ty up - yesPrice)) rfl rfl rfl sigma hexit
  constructor
  · unfold solveImpliedVol
    rw [if_neg (not_le.mpr hp1), if_neg (not_le.mpr hp2), if_neg (not_le.mpr htau)]
    dsimp only
    rw [if_neg hbr]
    exact congrArg some hsound.1
  · have hres := hsound.2
    dsimp only at hres
    linarith

/-- Claim C2 witness: a concrete bracketed run (under `stepMath` the model
price of the up-barrier one-touch with `S = 1`, `K = 2` is exactly `1/2`
for any positive volatility) in which the very first Brent iteration exits
through the residual test returning `10.0`, and re-pricing reproduces the
target `1/2` exactly. -/
theorem solveImpliedVol_roundTrip_residual_witness :
    ((0.001 : ℚ) < 1/2) ∧ ((1/2 : ℚ) < 0.999) ∧ ((0 : ℚ) < 1) ∧
    ((0.000001 : ℚ) ≤ 0.0001) ∧
    (¬ (0 : ℚ) < (priceOptionYes stepMath 1 2 0.01 1 OptionType.hit true - 1/2) *
        (priceOptionYes stepMath 1 2 10.0 1 OptionType.hit true - 1/2)) ∧
    (brentExitResidual (fun s => priceOptionYes stepMath 1 2 s 1 OptionType.hit true - 1/2)
        0.000001 100
        (brentInit 0.01 10.0 (priceOptionYes stepMath 1 2 0.01 1 OptionType.hit true - 1/2)
          (priceOptionYes stepMath 1 2 10.0 1 OptionType.hit true - 1/2)) = some 10.0) ∧
    (solveImpliedVol stepMath 1 2 1 (1/2) OptionType.hit true 0.000001 100 = some 10.0 ∧
     |priceOptionYes stepMath 1 2 10.0 1 OptionType.hit true - 1/2| ≤ 0.0001) := by
  have h001 : priceOptionYes stepMath 1 2 0.01 1 OptionType.hit true = 1/2 := by
    norm_num [priceOptionYes, priceHit, normalCDF, stepMath]
  have h10 : priceOptionYes stepMath 1 2 10.0 1 OptionType.hit true = 1/2 := by
    norm_num [priceOptionYes, priceHit, normalCDF, stepMath]
  have e1 : priceOptionYes stepMath 1 2 0.01 1 OptionType.hit true - 1/2 = 0 := by
    rw [h001]; norm_num
  have e2 : priceOptionYes stepMath 1 2 10.0 1 OptionType.hit true - 1/2 = 0 := by
    rw [h10]; norm_num
  have hbr : ¬ (0 : ℚ) < (priceOptionYes stepMath 1 2 0.01 1 OptionType.hit true - 1/2) *
      (priceOptionYes stepMath 1 2 10.0 1 OptionType.hit true - 1/2) := by
    rw [e1, e2]; norm_num
  have hprep : brentPrep (brentInit 0.01 10.0 0 0) = brentInit 0.01 10.0 0 0 := by
    norm_num [brentPrep, brentInit]
  have hfb : |(brentPrep (brentInit (0.01 : ℚ) 10.0 0 0)).fb| < 0.000001 := by
    rw [hprep]
    norm_num [brentInit]
  have hb10 : (brentPrep (brentInit (0.01 : ℚ) 10.0 0 0)).b = 10.0 := by
    rw [hprep]
    rfl
  have hexit : brentExitResidual (fun s => priceOptionYes stepMath 1 2 s 1 OptionType.hit true - 1/2)
      0.000001 100
      (brentInit 0.01 10.0 (priceOptionYes stepMath 1 2 0.01 1 OptionType.hit true - 1/2)
        (priceOptionYes stepMath 1 2 10.0 1 OptionType.hit true - 1/2)) = some 10.0 := by
    rw [e1, e2]
    have := brentExitResidual_exit
      (fun s => priceOptionYes stepMath 1 2 s 1 OptionType.hit true - 1/2)
      0.000001 99 (brentInit 0.01 10.0 0 0) (Or.inr hfb) hfb
    rw [hb10] at this
    exact this
  exact ⟨by norm_num, by norm_num, by norm_num, by norm_num, hbr, hexit,
    solveImpliedVol_roundTrip_residual stepMath 1 2 1 (1/2) OptionType.hit true 0.000001 100 10.0
      (by norm_num) (by norm_num) (by norm_num) (by norm_num) hbr hexit⟩
